import Mathlib

/-!
Verification of the streaming AAC encoder wrapper (`src/enc.rs`).

The development shallowly embeds the wrapper's observable behaviour:

* the error taxonomy `EncoderError` with its `message` and `code` accessors;
* the configuration sequence issued by `Encoder::new` as a trace of engine
  calls, together with the abort-on-first-failure semantics of `check(...)?`;
* the streaming loop `Encoder::encode` as a recursive function over the list
  of chunks delivered by the input source, parameterised by an engine oracle
  that supplies, per process call, the status code, the reported
  `numInSamples` / `numOutBytes`, and the contents the engine leaves in the
  output scratch buffer.  The function returns the full trace: process calls
  (with their buffer descriptors and in-args), sink writes, running-total
  snapshots, and the final result.

Numeric constants of the engine binding (`fdk_aac_sys`) are not part of
`src/`; their values are modelled from the FDK AAC library's published
`AACENC_ERROR` and parameter enumerations that the binding re-exports.
-/

/-- Engine status code `AACENC_OK` (value from the FDK AAC header re-exported
by the `fdk_aac_sys` binding). -/
def AACENC_ERROR_AACENC_OK : Nat := 0x0000

/-- Engine status code `AACENC_INVALID_HANDLE`. -/
def AACENC_ERROR_AACENC_INVALID_HANDLE : Nat := 0x0020

/-- Engine status code `AACENC_MEMORY_ERROR`. -/
def AACENC_ERROR_AACENC_MEMORY_ERROR : Nat := 0x0040

/-- Engine status code `AACENC_UNSUPPORTED_PARAMETER`. -/
def AACENC_ERROR_AACENC_UNSUPPORTED_PARAMETER : Nat := 0x0060

/-- Engine status code `AACENC_INVALID_CONFIG`. -/
def AACENC_ERROR_AACENC_INVALID_CONFIG : Nat := 0x0080

/-- Engine status code `AACENC_INIT_ERROR`. -/
def AACENC_ERROR_AACENC_INIT_ERROR : Nat := 0x0100

/-- Engine status code `AACENC_INIT_AAC_ERROR`. -/
def AACENC_ERROR_AACENC_INIT_AAC_ERROR : Nat := 0x0120

/-- Engine status code `AACENC_INIT_SBR_ERROR`. -/
def AACENC_ERROR_AACENC_INIT_SBR_ERROR : Nat := 0x0140

/-- Engine status code `AACENC_INIT_TP_ERROR`. -/
def AACENC_ERROR_AACENC_INIT_TP_ERROR : Nat := 0x0160

/-- Engine status code `AACENC_INIT_META_ERROR`. -/
def AACENC_ERROR_AACENC_INIT_META_ERROR : Nat := 0x0180

/-- Engine status code `AACENC_INIT_MPS_ERROR`. -/
def AACENC_ERROR_AACENC_INIT_MPS_ERROR : Nat := 0x0200

/-- Engine status code `AACENC_ENCODE_ERROR`. -/
def AACENC_ERROR_AACENC_ENCODE_ERROR : Nat := 0x0500

/-- Engine status code `AACENC_ENCODE_EOF` (logical end of stream). -/
def AACENC_ERROR_AACENC_ENCODE_EOF : Nat := 0x0580

/-- `EncoderError` from `src/enc.rs` lines 11-14: either a wrapped I/O error
(the payload of `std::io::Error` is opaque to the wrapper, modelled as a
`Nat` tag) or a raw engine status code. -/
inductive EncoderError : Type where
  | Io (e : Nat) : EncoderError
  | FdkAac (code : Nat) : EncoderError
deriving DecidableEq, Repr

/-- `EncoderError::message` from `src/enc.rs` lines 17-33: a fixed string per
known engine code, a catch-all for unknown codes, and a fixed string for the
I/O variant. -/
def EncoderError.message : EncoderError → String
  | EncoderError.FdkAac c =>
      if c = AACENC_ERROR_AACENC_INVALID_HANDLE then "Handle passed to function call was invalid."
      else if c = AACENC_ERROR_AACENC_MEMORY_ERROR then "Memory allocation failed."
      else if c = AACENC_ERROR_AACENC_UNSUPPORTED_PARAMETER then "Parameter not available."
      else if c = AACENC_ERROR_AACENC_INVALID_CONFIG then "Configuration not provided."
      else if c = AACENC_ERROR_AACENC_INIT_ERROR then "General initialization error."
      else if c = AACENC_ERROR_AACENC_INIT_AAC_ERROR then "AAC library initialization error."
      else if c = AACENC_ERROR_AACENC_INIT_SBR_ERROR then "SBR library initialization error."
      else if c = AACENC_ERROR_AACENC_INIT_TP_ERROR then "Transport library initialization error."
      else if c = AACENC_ERROR_AACENC_INIT_META_ERROR then "Meta data library initialization error."
      else if c = AACENC_ERROR_AACENC_INIT_MPS_ERROR then "MPS library initialization error."
      else if c = AACENC_ERROR_AACENC_ENCODE_ERROR then "The encoding process was interrupted by an unexpected error."
      else "Unknown error"
  | EncoderError.Io _ => "io error"

/-- `EncoderError::code` from `src/enc.rs` lines 35-40. -/
def EncoderError.code : EncoderError → Nat
  | EncoderError.FdkAac c => c
  | EncoderError.Io _ => 0

/-- Parameter id `AACENC_AOT` (profile / audio object type). -/
def AACENC_PARAM_AACENC_AOT : Nat := 0x0100

/-- Parameter id `AACENC_BITRATE`. -/
def AACENC_PARAM_AACENC_BITRATE : Nat := 0x0101

/-- Parameter id `AACENC_BITRATEMODE`. -/
def AACENC_PARAM_AACENC_BITRATEMODE : Nat := 0x0102

/-- Parameter id `AACENC_SAMPLERATE`. -/
def AACENC_PARAM_AACENC_SAMPLERATE : Nat := 0x0103

/-- Parameter id `AACENC_SBR_MODE` (bandwidth extension). -/
def AACENC_PARAM_AACENC_SBR_MODE : Nat := 0x0104

/-- Parameter id `AACENC_CHANNELMODE`. -/
def AACENC_PARAM_AACENC_CHANNELMODE : Nat := 0x0106

/-- Parameter id `AACENC_TRANSMUX` (bitstream framing mode). -/
def AACENC_PARAM_AACENC_TRANSMUX : Nat := 0x0300

/-- Buffer identifier `IN_AUDIO_DATA`. -/
def AACENC_BufferIdentifier_IN_AUDIO_DATA : Nat := 0

/-- Buffer identifier `OUT_BITSTREAM_DATA`. -/
def AACENC_BufferIdentifier_OUT_BITSTREAM_DATA : Nat := 3

/-- `BitRate` from `src/enc.rs` lines 92-100. -/
inductive BitRate : Type where
  | Cbr (bitrate : Nat) : BitRate
  | VbrVeryLow : BitRate
  | VbrLow : BitRate
  | VbrMedium : BitRate
  | VbrHigh : BitRate
  | VbrVeryHigh : BitRate
deriving DecidableEq, Repr

/-- `Transport` from `src/enc.rs` lines 112-116. -/
inductive Transport : Type where
  | Adts : Transport
  | Raw : Transport
deriving DecidableEq, Repr

/-- `EncoderParams` from `src/enc.rs` lines 102-106. -/
structure EncoderParams : Type where
  bit_rate : BitRate
  sample_rate : Nat
  transport : Transport
deriving DecidableEq, Repr

/-- One engine call issued during `Encoder::new` (`src/enc.rs` lines 125-164):
either `aacEncoder_SetParam(handle, param, value)` or the single
`aacEncEncode(handle, null, null, null, null)` commit call. -/
inductive SetupCall : Type where
  | setParam (param : Nat) (value : Nat) : SetupCall
  | encodeNull : SetupCall
deriving DecidableEq, Repr

/-- The `bitrate_mode` value computed by the match on `params.bit_rate`
(`src/enc.rs` lines 132-142). -/
def bitrateMode : BitRate → Nat
  | BitRate.Cbr _ => 0
  | BitRate.VbrVeryLow => 1
  | BitRate.VbrLow => 2
  | BitRate.VbrMedium => 3
  | BitRate.VbrHigh => 4
  | BitRate.VbrVeryHigh => 5

/-- The `AACENC_TRANSMUX` value from the match on `params.transport`
(`src/enc.rs` lines 148-151). -/
def transmuxValue : Transport → Nat
  | Transport.Adts => 2
  | Transport.Raw => 0

/-- The engine calls issued by `Encoder::new` (`src/enc.rs` lines 128-161),
in source order: AOT, then (for `Cbr`) the explicit bit rate, then bit-rate
mode, sample rate, transport, SBR mode, channel mode, and the final commit
call with all-null buffers. -/
def setupCalls (p : EncoderParams) : List SetupCall :=
  [SetupCall.setParam AACENC_PARAM_AACENC_AOT 2]
  ++ (match p.bit_rate with
      | BitRate.Cbr bitrate => [SetupCall.setParam AACENC_PARAM_AACENC_BITRATE bitrate]
      | _ => [])
  ++ [SetupCall.setParam AACENC_PARAM_AACENC_BITRATEMODE (bitrateMode p.bit_rate),
      SetupCall.setParam AACENC_PARAM_AACENC_SAMPLERATE p.sample_rate,
      SetupCall.setParam AACENC_PARAM_AACENC_TRANSMUX (transmuxValue p.transport),
      SetupCall.setParam AACENC_PARAM_AACENC_SBR_MODE 0,
      SetupCall.setParam AACENC_PARAM_AACENC_CHANNELMODE 2,
      SetupCall.encodeNull]

/-- Runs a list of engine calls under the `check(...)?` discipline of
`src/enc.rs` line 64-70: the `i`-th call issued receives status `resp i`;
a non-`AACENC_OK` status aborts immediately with `EncoderError::FdkAac`.
Returns the calls actually issued (the failing call included) and the
outcome. -/
def runChecked (resp : Nat → Nat) : Nat → List SetupCall → List SetupCall × Except EncoderError Unit
  | _, [] => ([], Except.ok ())
  | i, c :: cs =>
      if resp i = AACENC_ERROR_AACENC_OK then
        let t := runChecked resp (i + 1) cs
        (c :: t.1, t.2)
      else
        ([c], Except.error (EncoderError.FdkAac (resp i)))

/-- `Encoder::new` (`src/enc.rs` lines 125-164): `openCode` is the status of
the initial `aacEncOpen` allocation; `resp i` is the status the engine
returns for the `i`-th configuration call.  Returns the trace of engine
calls issued after a successful open, and the outcome. -/
def encoderNew (openCode : Nat) (resp : Nat → Nat) (p : EncoderParams) :
    List SetupCall × Except EncoderError Unit :=
  if openCode = AACENC_ERROR_AACENC_OK then
    runChecked resp 0 (setupCalls p)
  else
    ([], Except.error (EncoderError.FdkAac openCode))

/-- The shape of `AACENC_BufDesc` (`src/enc.rs` lines 193-211) that the
embedding can observe: buffer count, role identifier, byte size and element
size.  (The pointer fields describe the very byte lists carried alongside in
the trace.) -/
structure AACENC_BufDesc : Type where
  numBufs : Nat
  bufferIdentifier : Nat
  bufSize : Nat
  bufElSize : Nat
deriving DecidableEq, Repr

/-- `AACENC_InArgs` (`src/enc.rs` lines 213-216). -/
structure AACENC_InArgs : Type where
  numInSamples : Nat
  numAncBytes : Nat
deriving DecidableEq, Repr

/-- One `aacEncEncode` data call made by the loop: its input descriptor,
output descriptor and in-args. -/
structure ProcessCall : Type where
  input_desc : AACENC_BufDesc
  output_desc : AACENC_BufDesc
  in_args : AACENC_InArgs
deriving DecidableEq, Repr

/-- The engine's response to one `aacEncEncode` data call: the status code,
the `numInSamples` / `numOutBytes` fields of `AACENC_OutArgs`, and the bytes
the engine leaves in the output scratch buffer. -/
structure EngineResult : Type where
  code : Nat
  numInSamples : Nat
  numOutBytes : Nat
  scratch : List Nat
deriving DecidableEq, Repr

/-- `EncodeInfo` from `src/enc.rs` lines 118-122. -/
structure EncodeInfo : Type where
  input_consumed : Nat
  output_size : Nat
deriving DecidableEq, Repr

/-- The observable trace of one `Encoder::encode` run: the data calls made
(in order), the payloads handed to the output sink (in order), the running
totals `(total_consumed_samples, total_written_bytes)` after each update,
and the final outcome. -/
structure EncodeTrace : Type where
  calls : List ProcessCall
  writes : List (List Nat)
  stats : List (Nat × Nat)
  result : Except EncoderError EncodeInfo

/-- The input `AACENC_BufDesc` built at `src/enc.rs` lines 189-199: one
buffer, role `IN_AUDIO_DATA`, size = the bytes just read, element size =
`size_of::<i16>()` = 2. -/
def mkInputDesc (input_len : Nat) : AACENC_BufDesc :=
  { numBufs := 1
    bufferIdentifier := AACENC_BufferIdentifier_IN_AUDIO_DATA
    bufSize := input_len
    bufElSize := 2 }

/-- The output `AACENC_BufDesc` built at `src/enc.rs` lines 201-211: one
buffer, role `OUT_BITSTREAM_DATA`, size = the whole scratch buffer, element
size 2. -/
def mkOutputDesc (buffer_len : Nat) : AACENC_BufDesc :=
  { numBufs := 1
    bufferIdentifier := AACENC_BufferIdentifier_OUT_BITSTREAM_DATA
    bufSize := buffer_len
    bufElSize := 2 }

/-- The `AACENC_InArgs` built at `src/enc.rs` lines 213-216:
`numInSamples = input_len / 2`, `numAncBytes = 0`. -/
def mkInArgs (input_len : Nat) : AACENC_InArgs :=
  { numInSamples := input_len / 2
    numAncBytes := 0 }

/-- The full data call for a read of `input_len` bytes with a scratch buffer
of `buffer_len` bytes. -/
def mkProcessCall (input_len buffer_len : Nat) : ProcessCall :=
  { input_desc := mkInputDesc input_len
    output_desc := mkOutputDesc buffer_len
    in_args := mkInArgs input_len }

/-- The channel count, hard-coded to stereo (`src/enc.rs` line 176). -/
def channels : Nat := 2

/-- `buffer_len = 2 * channels * info.frameLength` (`src/enc.rs` line 177);
both `input_buffer` and `output_buffer` are allocated with exactly this many
bytes (lines 178-179). -/
def bufferLen (frameLength : Nat) : Nat := 2 * channels * frameLength

/-- The `loop` of `Encoder::encode` (`src/enc.rs` lines 183-243).  `chunks`
lists the successive results of `input.read` (the source's final 0-byte read
is the end of the list, or an explicit empty chunk); `engine i` is the
engine's response to the `i`-th `aacEncEncode` data call; `i`, `consumed`
and `written` carry the call counter and the two running totals. -/
def encodeLoop (engine : Nat → EngineResult) (buffer_len : Nat) :
    List (List Nat) → Nat → Nat → Nat → EncodeTrace
  | [], _, consumed, written =>
      { calls := [], writes := [], stats := []
        result := Except.ok { input_consumed := consumed, output_size := written } }
  | chunk :: rest, i, consumed, written =>
      let input_len := chunk.length
      if input_len = 0 then
        { calls := [], writes := [], stats := []
          result := Except.ok { input_consumed := consumed, output_size := written } }
      else
        let call := mkProcessCall input_len buffer_len
        let r := engine i
        if r.code ≠ AACENC_ERROR_AACENC_OK then
          if r.code = AACENC_ERROR_AACENC_ENCODE_EOF then
            { calls := [call], writes := [], stats := []
              result := Except.ok { input_consumed := consumed, output_size := written } }
          else
            { calls := [call], writes := [], stats := []
              result := Except.error (EncoderError.FdkAac r.code) }
        else
          let input_consumed := r.numInSamples
          let output_size := r.numOutBytes
          let consumed2 := consumed + input_consumed
          let written2 := written + output_size
          let t := encodeLoop engine buffer_len rest (i + 1) consumed2 written2
          { calls := call :: t.calls
            writes := r.scratch.take output_size :: t.writes
            stats := (consumed2, written2) :: t.stats
            result := t.result }

/-- `Encoder::encode` (`src/enc.rs` lines 172-249) for a session whose
`info()` call reported the given `frameLength`: allocates the two
`bufferLen frameLength`-byte buffers and runs the loop from zeroed totals. -/
def encode (frameLength : Nat) (engine : Nat → EngineResult)
    (chunks : List (List Nat)) : EncodeTrace :=
  encodeLoop engine (bufferLen frameLength) chunks 0 0 0

/-- The eleven engine codes given a dedicated message by
`EncoderError::message` (`src/enc.rs` lines 19-29). -/
def knownCodes : List Nat :=
  [AACENC_ERROR_AACENC_INVALID_HANDLE,
   AACENC_ERROR_AACENC_MEMORY_ERROR,
   AACENC_ERROR_AACENC_UNSUPPORTED_PARAMETER,
   AACENC_ERROR_AACENC_INVALID_CONFIG,
   AACENC_ERROR_AACENC_INIT_ERROR,
   AACENC_ERROR_AACENC_INIT_AAC_ERROR,
   AACENC_ERROR_AACENC_INIT_SBR_ERROR,
   AACENC_ERROR_AACENC_INIT_TP_ERROR,
   AACENC_ERROR_AACENC_INIT_META_ERROR,
   AACENC_ERROR_AACENC_INIT_MPS_ERROR,
   AACENC_ERROR_AACENC_ENCODE_ERROR]

/-- A concrete engine that always answers `AACENC_OK`, consuming 3 samples
and producing 2 bytes into a 4-byte scratch buffer (used by witnesses). -/
def engAllOk : Nat → EngineResult :=
  fun _ => { code := AACENC_ERROR_AACENC_OK, numInSamples := 3, numOutBytes := 2
             scratch := [9, 8, 7, 6] }

/-- A concrete engine that answers `AACENC_OK` on call 0 and
`AACENC_ENCODE_EOF` on every later call (used by witnesses). -/
def engEofAt1 : Nat → EngineResult :=
  fun i =>
    if i = 0 then
      { code := AACENC_ERROR_AACENC_OK, numInSamples := 2, numOutBytes := 3
        scratch := [5, 4, 3, 2] }
    else
      { code := AACENC_ERROR_AACENC_ENCODE_EOF, numInSamples := 0, numOutBytes := 0
        scratch := [0, 0, 0, 0] }

/-- A concrete engine that answers `AACENC_OK` on call 0 and the error code
`AACENC_ENCODE_ERROR` on every later call (used by witnesses). -/
def engErrAt1 : Nat → EngineResult :=
  fun i =>
    if i = 0 then
      { code := AACENC_ERROR_AACENC_OK, numInSamples := 2, numOutBytes := 1
        scratch := [5, 4, 3, 2] }
    else
      { code := AACENC_ERROR_AACENC_ENCODE_ERROR, numInSamples := 0, numOutBytes := 0
        scratch := [0, 0, 0, 0] }

/-- A configuration responder that fails the third engine call with
`AACENC_INVALID_CONFIG` (used by witnesses). -/
def respFailAt2 : Nat → Nat :=
  fun i => if i = 2 then AACENC_ERROR_AACENC_INVALID_CONFIG else AACENC_ERROR_AACENC_OK

/-- A concrete engine that always answers `AACENC_OK`, consuming 1 sample
and producing 2 bytes — it never claims more samples than a 2-byte read
offers (used by witnesses). -/
def engModest : Nat → EngineResult :=
  fun _ => { code := AACENC_ERROR_AACENC_OK, numInSamples := 1, numOutBytes := 2
             scratch := [9, 8, 7, 6] }

/-! ### Structural lemmas for the embeddings -/

theorem encodeLoop_nil (engine : Nat → EngineResult) (bl i c w : Nat) :
    encodeLoop engine bl [] i c w =
      { calls := [], writes := [], stats := []
        result := Except.ok { input_consumed := c, output_size := w } } := rfl

theorem encodeLoop_cons_zero (engine : Nat → EngineResult) (bl : Nat)
    (chunk : List Nat) (rest : List (List Nat)) (i c w : Nat)
    (h : chunk.length = 0) :
    encodeLoop engine bl (chunk :: rest) i c w =
      { calls := [], writes := [], stats := []
        result := Except.ok { input_consumed := c, output_size := w } } := by
  have hnil : chunk = [] := List.length_eq_zero.mp h
  subst hnil
  rfl

theorem encodeLoop_cons_eof (engine : Nat → EngineResult) (bl : Nat)
    (chunk : List Nat) (rest : List (List Nat)) (i c w : Nat)
    (h : chunk.length ≠ 0)
    (hc : (engine i).code = AACENC_ERROR_AACENC_ENCODE_EOF) :
    encodeLoop engine bl (chunk :: rest) i c w =
      { calls := [mkProcessCall chunk.length bl], writes := [], stats := []
        result := Except.ok { input_consumed := c, output_size := w } } := by
  have hne : (engine i).code ≠ AACENC_ERROR_AACENC_OK := by
    rw [hc]; decide
  simp only [encodeLoop]
  rw [if_neg h, if_pos hne, if_pos hc]

theorem encodeLoop_cons_err (engine : Nat → EngineResult) (bl : Nat)
    (chunk : List Nat) (rest : List (List Nat)) (i c w : Nat)
    (h : chunk.length ≠ 0)
    (hne : (engine i).code ≠ AACENC_ERROR_AACENC_OK)
    (heof : (engine i).code ≠ AACENC_ERROR_AACENC_ENCODE_EOF) :
    encodeLoop engine bl (chunk :: rest) i c w =
      { calls := [mkProcessCall chunk.length bl], writes := [], stats := []
        result := Except.error (EncoderError.FdkAac (engine i).code) } := by
  simp only [encodeLoop]
  rw [if_neg h, if_pos hne, if_neg heof]

theorem encodeLoop_cons_ok (engine : Nat → EngineResult) (bl : Nat)
    (chunk : List Nat) (rest : List (List Nat)) (i c w : Nat)
    (h : chunk.length ≠ 0)
    (hok : (engine i).code = AACENC_ERROR_AACENC_OK) :
    encodeLoop engine bl (chunk :: rest) i c w =
      { calls := mkProcessCall chunk.length bl ::
          (encodeLoop engine bl rest (i + 1) (c + (engine i).numInSamples)
            (w + (engine i).numOutBytes)).calls
        writes := (engine i).scratch.take (engine i).numOutBytes ::
          (encodeLoop engine bl rest (i + 1) (c + (engine i).numInSamples)
            (w + (engine i).numOutBytes)).writes
        stats := (c + (engine i).numInSamples, w + (engine i).numOutBytes) ::
          (encodeLoop engine bl rest (i + 1) (c + (engine i).numInSamples)
            (w + (engine i).numOutBytes)).stats
        result := (encodeLoop engine bl rest (i + 1) (c + (engine i).numInSamples)
          (w + (engine i).numOutBytes)).result } := by
  have hnot : ¬ (engine i).code ≠ AACENC_ERROR_AACENC_OK := by
    simp [hok]
  simp only [encodeLoop]
  rw [if_neg h, if_neg hnot]

theorem runChecked_nil (resp : Nat → Nat) (i : Nat) :
    runChecked resp i [] = ([], Except.ok ()) := rfl

theorem runChecked_cons_ok (resp : Nat → Nat) (i : Nat) (c : SetupCall)
    (cs : List SetupCall) (h : resp i = AACENC_ERROR_AACENC_OK) :
    runChecked resp i (c :: cs) =
      (c :: (runChecked resp (i + 1) cs).1, (runChecked resp (i + 1) cs).2) := by
  simp only [runChecked]
  rw [if_pos h]

theorem runChecked_cons_fail (resp : Nat → Nat) (i : Nat) (c : SetupCall)
    (cs : List SetupCall) (h : resp i ≠ AACENC_ERROR_AACENC_OK) :
    runChecked resp i (c :: cs) =
      ([c], Except.error (EncoderError.FdkAac (resp i))) := by
  simp only [runChecked]
  rw [if_neg h]

/-- Pointwise characterisation of the sink writes of the loop: the `j`-th
write comes from the `j`-th process call (numbered from `i`), is exactly the
`numOutBytes` prefix of that call's scratch contents, and exists exactly when
that call returned `AACENC_OK` — the only call that may lack a write is a
final non-`OK` one. -/
theorem encodeLoop_writes_spec (engine : Nat → EngineResult) (bl : Nat) :
    ∀ (chunks : List (List Nat)) (i c w : Nat),
    (∀ j (hj : j < (encodeLoop engine bl chunks i c w).writes.length),
        (engine (i + j)).code = AACENC_ERROR_AACENC_OK ∧
        (encodeLoop engine bl chunks i c w).writes.get ⟨j, hj⟩ =
          (engine (i + j)).scratch.take (engine (i + j)).numOutBytes) ∧
    (encodeLoop engine bl chunks i c w).writes.length ≤
      (encodeLoop engine bl chunks i c w).calls.length ∧
    (encodeLoop engine bl chunks i c w).calls.length ≤
      (encodeLoop engine bl chunks i c w).writes.length + 1 ∧
    ((encodeLoop engine bl chunks i c w).calls.length =
        (encodeLoop engine bl chunks i c w).writes.length + 1 →
      (engine (i + (encodeLoop engine bl chunks i c w).writes.length)).code ≠
        AACENC_ERROR_AACENC_OK) := by
  intro chunks
  induction chunks with
  | nil =>
      intro i c w
      rw [encodeLoop_nil]
      refine ⟨fun j hj => absurd hj (by simp), by simp, by simp, fun h => absurd h (by simp)⟩
  | cons chunk rest ih =>
      intro i c w
      by_cases h0 : chunk.length = 0
      · rw [encodeLoop_cons_zero engine bl chunk rest i c w h0]
        refine ⟨fun j hj => absurd hj (by simp), by simp, by simp, fun h => absurd h (by simp)⟩
      · by_cases hok : (engine i).code = AACENC_ERROR_AACENC_OK
        · rw [encodeLoop_cons_ok engine bl chunk rest i c w h0 hok]
          obtain ⟨hget, hle, hle2, hlast⟩ :=
            ih (i + 1) (c + (engine i).numInSamples) (w + (engine i).numOutBytes)
          refine ⟨?_, ?_, ?_, ?_⟩
          · intro j hj
            cases j with
            | zero =>
                refine ⟨by simpa using hok, ?_⟩
                simp only [List.get]
                rw [Nat.add_zero]
            | succ j' =>
                have hj' : j' <
                    (encodeLoop engine bl rest (i + 1) (c + (engine i).numInSamples)
                      (w + (engine i).numOutBytes)).writes.length := by
                  simpa using hj
                obtain ⟨hc1, hc2⟩ := hget j' hj'
                have hidx : i + (j' + 1) = i + 1 + j' := by omega
                refine ⟨by rw [hidx]; exact hc1, ?_⟩
                simp only [List.get]
                rw [hc2, hidx]
          · simpa using hle
          · simpa using hle2
          · intro hlen
            have hlen' :
                (encodeLoop engine bl rest (i + 1) (c + (engine i).numInSamples)
                  (w + (engine i).numOutBytes)).calls.length =
                (encodeLoop engine bl rest (i + 1) (c + (engine i).numInSamples)
                  (w + (engine i).numOutBytes)).writes.length + 1 := by
              simpa using hlen
            have := hlast hlen'
            have hidx : i +
                ((engine i).scratch.take (engine i).numOutBytes ::
                  (encodeLoop engine bl rest (i + 1) (c + (engine i).numInSamples)
                    (w + (engine i).numOutBytes)).writes).length =
                i + 1 + (encodeLoop engine bl rest (i + 1) (c + (engine i).numInSamples)
                    (w + (engine i).numOutBytes)).writes.length := by
              simp; omega
            rw [hidx]
            exact this
        · by_cases heof : (engine i).code = AACENC_ERROR_AACENC_ENCODE_EOF
          · rw [encodeLoop_cons_eof engine bl chunk rest i c w h0 heof]
            refine ⟨fun j hj => absurd hj (by simp), by simp, by simp, fun _ => ?_⟩
            simpa using hok
          · rw [encodeLoop_cons_err engine bl chunk rest i c w h0 hok heof]
            refine ⟨fun j hj => absurd hj (by simp), by simp, by simp, fun _ => ?_⟩
            simpa using hok


/-- C1: For every successful process call in the streaming encode loop
(engine status `AACENC_OK`), the output sink receives exactly the
`numOutBytes`-byte prefix of the scratch buffer reported by the engine for
that call; writes happen in call order, every `OK` call contributes exactly
one write, and only a final non-`OK` call contributes none — nothing is
added or dropped by the wrapper. -/
theorem encode_sink_gets_exact_prefixes (fl : Nat) (engine : Nat → EngineResult)
    (chunks : List (List Nat))
    (hlen : ∀ j, (engine j).numOutBytes ≤ (engine j).scratch.length) :
    (∀ j (hj : j < (encode fl engine chunks).writes.length),
        (engine j).code = AACENC_ERROR_AACENC_OK ∧
        (encode fl engine chunks).writes.get ⟨j, hj⟩ =
          (engine j).scratch.take (engine j).numOutBytes ∧
        ((encode fl engine chunks).writes.get ⟨j, hj⟩).length = (engine j).numOutBytes) ∧
    (encode fl engine chunks).writes.length ≤ (encode fl engine chunks).calls.length ∧
    (encode fl engine chunks).calls.length ≤ (encode fl engine chunks).writes.length + 1 ∧
    ((encode fl engine chunks).calls.length = (encode fl engine chunks).writes.length + 1 →
      (engine (encode fl engine chunks).writes.length).code ≠ AACENC_ERROR_AACENC_OK) := by
  simp only [encode]
  obtain ⟨hget, hle, hle2, hlast⟩ :=
    encodeLoop_writes_spec engine (bufferLen fl) chunks 0 0 0
  refine ⟨?_, hle, hle2, ?_⟩
  · intro j hj
    obtain ⟨hc1, hc2⟩ := hget j hj
    rw [Nat.zero_add] at hc1 hc2
    refine ⟨hc1, hc2, ?_⟩
    rw [hc2, List.length_take]
    exact Nat.min_eq_left (hlen j)
  · intro h
    have := hlast h
    rwa [Nat.zero_add] at this

/-- Witness for C1 at a concrete engine and input. -/
theorem encode_sink_gets_exact_prefixes_witness :
    (engAllOk 0).code = AACENC_ERROR_AACENC_OK ∧
    (encode 1 engAllOk [[1, 2]]).writes.get
      ⟨0, by decide⟩ = [9, 8] ∧
    (encode 1 engAllOk [[1, 2]]).writes.length ≤ (encode 1 engAllOk [[1, 2]]).calls.length := by
  obtain ⟨hget, hle, -, -⟩ :=
    encode_sink_gets_exact_prefixes 1 engAllOk [[1, 2]] (fun j => by norm_num [engAllOk])
  obtain ⟨h1, h2, -⟩ := hget 0 (by decide)
  refine ⟨h1, ?_, hle⟩
  rw [h2]
  rfl

/-- Pointwise characterisation of the process calls of the loop: the `j`-th
call is built from the `j`-th (necessarily non-empty) chunk read from the
source, with the full descriptor / in-args shape of `src/enc.rs` lines
189-216. -/
theorem encodeLoop_calls_spec (engine : Nat → EngineResult) (bl : Nat) :
    ∀ (chunks : List (List Nat)) (i c w : Nat) (j : Nat) (x : ProcessCall),
      (encodeLoop engine bl chunks i c w).calls.get? j = some x →
      ∃ ch, chunks.get? j = some ch ∧ x = mkProcessCall ch.length bl ∧
        ch.length ≠ 0 := by
  intro chunks
  induction chunks with
  | nil =>
      intro i c w j x hx
      rw [encodeLoop_nil] at hx
      simp at hx
  | cons chunk rest ih =>
      intro i c w j x hx
      by_cases h0 : chunk.length = 0
      · rw [encodeLoop_cons_zero engine bl chunk rest i c w h0] at hx
        simp at hx
      · by_cases hok : (engine i).code = AACENC_ERROR_AACENC_OK
        · rw [encodeLoop_cons_ok engine bl chunk rest i c w h0 hok] at hx
          cases j with
          | zero =>
              simp only [List.get?] at hx
              refine ⟨chunk, rfl, ?_, h0⟩
              exact (Option.some_inj.mp hx).symm
          | succ j' =>
              simp only [List.get?] at hx
              obtain ⟨ch, hch, hx2, hne⟩ := ih (i + 1) (c + (engine i).numInSamples)
                (w + (engine i).numOutBytes) j' x hx
              exact ⟨ch, hch, hx2, hne⟩
        · by_cases heof : (engine i).code = AACENC_ERROR_AACENC_ENCODE_EOF
          · rw [encodeLoop_cons_eof engine bl chunk rest i c w h0 heof] at hx
            cases j with
            | zero =>
                simp only [List.get?] at hx
                exact ⟨chunk, rfl, (Option.some_inj.mp hx).symm, h0⟩
            | succ j' =>
                simp only [List.get?] at hx
                simp at hx
          · rw [encodeLoop_cons_err engine bl chunk rest i c w h0 hok heof] at hx
            cases j with
            | zero =>
                simp only [List.get?] at hx
                exact ⟨chunk, rfl, (Option.some_inj.mp hx).symm, h0⟩
            | succ j' =>
                simp only [List.get?] at hx
                simp at hx

/-- C6: the loop sizes both reusable buffers at exactly
`2 × channels × frameLength` bytes (`channels = 2`), and every process call
carries an input descriptor over exactly the bytes actually read (one
buffer, role `IN_AUDIO_DATA`, element size 2, `numInSamples = bytes / 2`)
and an output descriptor over the full scratch buffer (role
`OUT_BITSTREAM_DATA`, size `bufferLen`, element size 2); a non-empty short
read is passed to `process` as-is. -/
theorem encode_buffer_geometry (fl : Nat) (engine : Nat → EngineResult)
    (chunks : List (List Nat)) :
    bufferLen fl = 2 * 2 * fl ∧
    (∀ j x, (encode fl engine chunks).calls.get? j = some x →
      ∃ ch, chunks.get? j = some ch ∧ ch.length ≠ 0 ∧
        x = mkProcessCall ch.length (bufferLen fl) ∧
        x.input_desc.numBufs = 1 ∧
        x.input_desc.bufferIdentifier = AACENC_BufferIdentifier_IN_AUDIO_DATA ∧
        x.input_desc.bufSize = ch.length ∧
        x.input_desc.bufElSize = 2 ∧
        x.in_args.numInSamples = ch.length / 2 ∧
        x.in_args.numAncBytes = 0 ∧
        x.output_desc.numBufs = 1 ∧
        x.output_desc.bufferIdentifier = AACENC_BufferIdentifier_OUT_BITSTREAM_DATA ∧
        x.output_desc.bufSize = bufferLen fl ∧
        x.output_desc.bufElSize = 2) := by
  refine ⟨rfl, ?_⟩
  intro j x hx
  simp only [encode] at hx
  obtain ⟨ch, hch, hx2, hne⟩ := encodeLoop_calls_spec engine (bufferLen fl) chunks 0 0 0 j x hx
  subst hx2
  exact ⟨ch, hch, hne, rfl, rfl, rfl, rfl, rfl, rfl, rfl, rfl, rfl, rfl, rfl⟩

/-- Witness for C6 at a concrete input: the single call for the 3-byte read
has input size 3, one sample pair offered, and a 4-byte output descriptor. -/
theorem encode_buffer_geometry_witness :
    (encode 1 engAllOk [[5, 6, 7]]).calls.get? 0 =
      some (mkProcessCall 3 (bufferLen 1)) ∧
    (mkProcessCall 3 (bufferLen 1)).input_desc.bufSize = 3 ∧
    (mkProcessCall 3 (bufferLen 1)).in_args.numInSamples = 1 ∧
    (mkProcessCall 3 (bufferLen 1)).output_desc.bufSize = 4 := by
  obtain ⟨ch, hch, hne, hx, h4, h5, h6, h7, h8, h9, h10, h11, h12, h13⟩ :=
    (encode_buffer_geometry 1 engAllOk [[5, 6, 7]]).2 0
      (mkProcessCall 3 (bufferLen 1)) rfl
  have hch2 : ch = [5, 6, 7] := by
    simpa using hch.symm
  subst hch2
  exact ⟨rfl, h6, h8, h12.trans (by rfl)⟩

/-- C10: a read of `n > 0` bytes — odd `n` included — is still handed to
`process`: the first call offers `n / 2` samples (floor) while the input
descriptor's size field carries the full `n` bytes; only a read of exactly 0
bytes terminates the loop (returning the current totals). -/
theorem encode_nonzero_read_is_processed (fl : Nat) (engine : Nat → EngineResult)
    (chunk : List Nat) (rest : List (List Nat)) :
    (chunk.length ≠ 0 →
       (encode fl engine (chunk :: rest)).calls.head? =
         some (mkProcessCall chunk.length (bufferLen fl)) ∧
       (mkProcessCall chunk.length (bufferLen fl)).in_args.numInSamples =
         chunk.length / 2 ∧
       (mkProcessCall chunk.length (bufferLen fl)).input_desc.bufSize = chunk.length ∧
       1 ≤ (encode fl engine (chunk :: rest)).calls.length) ∧
    (chunk.length = 0 →
       (encode fl engine (chunk :: rest)).calls = [] ∧
       (encode fl engine (chunk :: rest)).result =
         Except.ok { input_consumed := 0, output_size := 0 }) := by
  simp only [encode]
  constructor
  · intro h
    by_cases hok : (engine 0).code = AACENC_ERROR_AACENC_OK
    · rw [encodeLoop_cons_ok engine (bufferLen fl) chunk rest 0 0 0 h hok]
      exact ⟨rfl, rfl, rfl, by simp⟩
    · by_cases heof : (engine 0).code = AACENC_ERROR_AACENC_ENCODE_EOF
      · rw [encodeLoop_cons_eof engine (bufferLen fl) chunk rest 0 0 0 h heof]
        exact ⟨rfl, rfl, rfl, by simp⟩
      · rw [encodeLoop_cons_err engine (bufferLen fl) chunk rest 0 0 0 h hok heof]
        exact ⟨rfl, rfl, rfl, by simp⟩
  · intro h
    rw [encodeLoop_cons_zero engine (bufferLen fl) chunk rest 0 0 0 h]
    exact ⟨rfl, rfl⟩

/-- Witness for C10 at an odd 3-byte read. -/
theorem encode_nonzero_read_is_processed_witness :
    (encode 1 engAllOk [[1, 2, 3]]).calls.head? =
      some (mkProcessCall 3 (bufferLen 1)) ∧
    (mkProcessCall 3 (bufferLen 1)).in_args.numInSamples = 1 := by
  obtain ⟨h1, h2, -, -⟩ :=
    (encode_nonzero_read_is_processed 1 engAllOk [1, 2, 3] []).1 (by decide)
  exact ⟨h1, h2⟩

/-- Re-indexing a sum of engine quantities over one more call. -/
theorem sum_range_shift (f : Nat → Nat) (i m : Nat) :
    ∑ j ∈ Finset.range (m + 1), f (i + j) =
      f i + ∑ j ∈ Finset.range m, f (i + 1 + j) := by
  rw [Finset.sum_range_succ']
  have h1 : ∀ k ∈ Finset.range m, f (i + (k + 1)) = f (i + 1 + k) := by
    intro k _
    congr 1
    omega
  rw [Finset.sum_congr rfl h1]
  simp only [Nat.add_zero]
  omega

/-- If the first `m` calls return `AACENC_OK` and call `m` returns
`AACENC_ENCODE_EOF` (with the corresponding reads all non-empty), the loop
makes exactly `m + 1` calls, performs `m` sink writes and `m` stat updates,
and returns `Ok` with the totals accumulated through call `m - 1`. -/
theorem encodeLoop_eof_run (engine : Nat → EngineResult) (bl : Nat) :
    ∀ (m : Nat) (chunks : List (List Nat)) (i c w : Nat),
    m < chunks.length →
    (∀ j, j ≤ m → ∀ ch, chunks.get? j = some ch → ch.length ≠ 0) →
    (∀ j, j < m → (engine (i + j)).code = AACENC_ERROR_AACENC_OK) →
    (engine (i + m)).code = AACENC_ERROR_AACENC_ENCODE_EOF →
    (encodeLoop engine bl chunks i c w).calls.length = m + 1 ∧
    (encodeLoop engine bl chunks i c w).writes.length = m ∧
    (encodeLoop engine bl chunks i c w).stats.length = m ∧
    (encodeLoop engine bl chunks i c w).result = Except.ok
      { input_consumed := c + ∑ j ∈ Finset.range m, (engine (i + j)).numInSamples
        output_size := w + ∑ j ∈ Finset.range m, (engine (i + j)).numOutBytes } := by
  intro m
  induction m with
  | zero =>
      intro chunks i c w hm hne hok heof
      cases chunks with
      | nil => simp at hm
      | cons ch rest =>
          have h0 : ch.length ≠ 0 := hne 0 (Nat.le_refl 0) ch rfl
          rw [encodeLoop_cons_eof engine bl ch rest i c w h0 heof]
          simp
  | succ m' ih =>
      intro chunks i c w hm hne hok heof
      cases chunks with
      | nil => simp at hm
      | cons ch rest =>
          have h0 : ch.length ≠ 0 := hne 0 (Nat.zero_le _) ch rfl
          have hoki : (engine i).code = AACENC_ERROR_AACENC_OK := by
            have := hok 0 (Nat.succ_pos m')
            simpa using this
          rw [encodeLoop_cons_ok engine bl ch rest i c w h0 hoki]
          obtain ⟨ih1, ih2, ih3, ih4⟩ := ih rest (i + 1) (c + (engine i).numInSamples)
            (w + (engine i).numOutBytes)
            (by simpa using hm)
            (fun j hj ch2 hch2 => hne (j + 1) (Nat.succ_le_succ hj) ch2 hch2)
            (fun j hj => by
              have := hok (j + 1) (Nat.succ_lt_succ hj)
              rwa [show i + (j + 1) = i + 1 + j by omega] at this)
            (by rwa [show i + 1 + m' = i + (m' + 1) by omega])
          refine ⟨by simpa using ih1, by simpa using ih2, by simpa using ih3, ?_⟩
          simp only [ih4]
          congr 2
          · rw [sum_range_shift (fun n => (engine n).numInSamples) i m']
            omega
          · rw [sum_range_shift (fun n => (engine n).numOutBytes) i m']
            omega

/-- C2: if the engine returns `AACENC_ENCODE_EOF` on process call `m` (the
first `m` calls having succeeded on non-empty reads), the loop writes no
output bytes and adds nothing to the totals for call `m`, performs no call
`m + 1`, and returns `Ok` with the totals accumulated through call
`m - 1` — a clean terminal signal, not an error. -/
theorem encode_eof_stops_cleanly (fl : Nat) (engine : Nat → EngineResult)
    (chunks : List (List Nat)) (m : Nat)
    (hm : m < chunks.length)
    (hne : ∀ j, j ≤ m → ∀ ch, chunks.get? j = some ch → ch.length ≠ 0)
    (hok : ∀ j, j < m → (engine j).code = AACENC_ERROR_AACENC_OK)
    (heof : (engine m).code = AACENC_ERROR_AACENC_ENCODE_EOF) :
    (encode fl engine chunks).calls.length = m + 1 ∧
    (encode fl engine chunks).writes.length = m ∧
    (encode fl engine chunks).stats.length = m ∧
    (encode fl engine chunks).result = Except.ok
      { input_consumed := ∑ j ∈ Finset.range m, (engine j).numInSamples
        output_size := ∑ j ∈ Finset.range m, (engine j).numOutBytes } := by
  have h := encodeLoop_eof_run engine (bufferLen fl) m chunks 0 0 0 hm hne
    (fun j hj => by simpa using hok j hj) (by simpa using heof)
  simpa [encode] using h

/-- Witness for C2: with an engine that is `OK` on call 0 and `EOF` on call
1, two available reads produce exactly two calls, one write, and the totals
of call 0 only. -/
theorem encode_eof_stops_cleanly_witness :
    (encode 1 engEofAt1 [[1, 2], [3, 4]]).calls.length = 2 ∧
    (encode 1 engEofAt1 [[1, 2], [3, 4]]).writes.length = 1 ∧
    (encode 1 engEofAt1 [[1, 2], [3, 4]]).result =
      Except.ok { input_consumed := 2, output_size := 3 } := by
  obtain ⟨h1, h2, h3, h4⟩ := encode_eof_stops_cleanly 1 engEofAt1 [[1, 2], [3, 4]] 1
    (by decide)
    (by
      intro j hj ch hch
      interval_cases j <;>
        (simp only [List.get?] at hch
         injection hch with h2
         subst h2
         decide))
    (by
      intro j hj
      interval_cases j
      rfl)
    (by rfl)
  refine ⟨h1, h2, ?_⟩
  rw [h4]
  simp [Finset.sum_range_one, engEofAt1]

/-- If every read is non-empty and the engine answers `AACENC_OK` on every
call, the loop makes exactly one call per read and finishes with the summed
totals. -/
theorem encodeLoop_ok_run (engine : Nat → EngineResult) (bl : Nat) :
    ∀ (chunks : List (List Nat)) (i c w : Nat),
    (∀ ch ∈ chunks, ch.length ≠ 0) →
    (∀ j, (engine j).code = AACENC_ERROR_AACENC_OK) →
    (encodeLoop engine bl chunks i c w).calls.length = chunks.length ∧
    (encodeLoop engine bl chunks i c w).result = Except.ok
      { input_consumed := c + ∑ j ∈ Finset.range chunks.length, (engine (i + j)).numInSamples
        output_size := w + ∑ j ∈ Finset.range chunks.length, (engine (i + j)).numOutBytes } := by
  intro chunks
  induction chunks with
  | nil =>
      intro i c w hne hok
      rw [encodeLoop_nil]
      simp
  | cons ch rest ih =>
      intro i c w hne hok
      have h0 : ch.length ≠ 0 := hne ch (List.mem_cons_self ch rest)
      rw [encodeLoop_cons_ok engine bl ch rest i c w h0 (hok i)]
      obtain ⟨ih1, ih2⟩ := ih (i + 1) (c + (engine i).numInSamples)
        (w + (engine i).numOutBytes)
        (fun ch2 h => hne ch2 (List.mem_cons_of_mem ch h)) hok
      refine ⟨by simpa using ih1, ?_⟩
      simp only [ih2, List.length_cons]
      congr 2
      · rw [sum_range_shift (fun n => (engine n).numInSamples) i rest.length]
        omega
      · rw [sum_range_shift (fun n => (engine n).numOutBytes) i rest.length]
        omega

/-- C4: for an input source yielding exactly `k` non-empty reads then end of
input, with an engine returning `OK` each time, the loop performs exactly
`k` process calls and terminates normally with the summed totals; in
particular immediate end of input yields
`EncodeInfo (input_consumed 0) (output_size 0)` with no process call. -/
theorem encode_k_reads_k_calls (fl : Nat) (engine : Nat → EngineResult)
    (chunks : List (List Nat))
    (hne : ∀ ch ∈ chunks, ch.length ≠ 0)
    (hok : ∀ j, (engine j).code = AACENC_ERROR_AACENC_OK) :
    (encode fl engine chunks).calls.length = chunks.length ∧
    (encode fl engine chunks).result = Except.ok
      { input_consumed := ∑ j ∈ Finset.range chunks.length, (engine j).numInSamples
        output_size := ∑ j ∈ Finset.range chunks.length, (engine j).numOutBytes } ∧
    (encode fl engine ([] : List (List Nat))).calls.length = 0 ∧
    (encode fl engine ([] : List (List Nat))).result =
      Except.ok { input_consumed := 0, output_size := 0 } := by
  obtain ⟨h1, h2⟩ := encodeLoop_ok_run engine (bufferLen fl) chunks 0 0 0 hne hok
  refine ⟨h1, ?_, rfl, rfl⟩
  simpa [encode] using h2

/-- Witness for C4 with two non-empty reads. -/
theorem encode_k_reads_k_calls_witness :
    (encode 1 engAllOk [[1, 2], [3, 4]]).calls.length = 2 ∧
    (encode 1 engAllOk [[1, 2], [3, 4]]).result =
      Except.ok { input_consumed := 6, output_size := 4 } := by
  obtain ⟨h1, h2, -, -⟩ := encode_k_reads_k_calls 1 engAllOk [[1, 2], [3, 4]]
    (by decide) (fun _ => rfl)
  refine ⟨h1, ?_⟩
  rw [h2]
  simp [Finset.sum_range_succ, engAllOk]

/-- If the first `m` calls return `AACENC_OK` and call `m` returns a status
that is neither `AACENC_OK` nor `AACENC_ENCODE_EOF`, the loop stops at call
`m` with no write and no stat update for it and propagates
`EncoderError::FdkAac` with that status. -/
theorem encodeLoop_err_run (engine : Nat → EngineResult) (bl : Nat) :
    ∀ (m : Nat) (chunks : List (List Nat)) (i c w : Nat),
    m < chunks.length →
    (∀ j, j ≤ m → ∀ ch, chunks.get? j = some ch → ch.length ≠ 0) →
    (∀ j, j < m → (engine (i + j)).code = AACENC_ERROR_AACENC_OK) →
    (engine (i + m)).code ≠ AACENC_ERROR_AACENC_OK →
    (engine (i + m)).code ≠ AACENC_ERROR_AACENC_ENCODE_EOF →
    (encodeLoop engine bl chunks i c w).calls.length = m + 1 ∧
    (encodeLoop engine bl chunks i c w).writes.length = m ∧
    (encodeLoop engine bl chunks i c w).stats.length = m ∧
    (encodeLoop engine bl chunks i c w).result =
      Except.error (EncoderError.FdkAac (engine (i + m)).code) := by
  intro m
  induction m with
  | zero =>
      intro chunks i c w hm hne hok herr heof
      cases chunks with
      | nil => simp at hm
      | cons ch rest =>
          have h0 : ch.length ≠ 0 := hne 0 (Nat.le_refl 0) ch rfl
          rw [encodeLoop_cons_err engine bl ch rest i c w h0 herr heof]
          simp
  | succ m' ih =>
      intro chunks i c w hm hne hok herr heof
      cases chunks with
      | nil => simp at hm
      | cons ch rest =>
          have h0 : ch.length ≠ 0 := hne 0 (Nat.zero_le _) ch rfl
          have hoki : (engine i).code = AACENC_ERROR_AACENC_OK := by
            have := hok 0 (Nat.succ_pos m')
            simpa using this
          rw [encodeLoop_cons_ok engine bl ch rest i c w h0 hoki]
          obtain ⟨ih1, ih2, ih3, ih4⟩ := ih rest (i + 1) (c + (engine i).numInSamples)
            (w + (engine i).numOutBytes)
            (by simpa using hm)
            (fun j hj ch2 hch2 => hne (j + 1) (Nat.succ_le_succ hj) ch2 hch2)
            (fun j hj => by
              have := hok (j + 1) (Nat.succ_lt_succ hj)
              rwa [show i + (j + 1) = i + 1 + j by omega] at this)
            (by rwa [show i + 1 + m' = i + (m' + 1) by omega])
            (by rwa [show i + 1 + m' = i + (m' + 1) by omega])
          refine ⟨by simpa using ih1, by simpa using ih2, by simpa using ih3, ?_⟩
          rw [show i + (m' + 1) = i + 1 + m' by omega]
          exact ih4

/-- C5: a process status that is neither `AACENC_OK` nor the end-of-stream
code makes the loop return immediately: no further engine call, no sink
write and no stats update for the failing call, and the error is
`EncoderError::FdkAac` carrying the originating numeric code (retrievable
via `code()`), with a fixed message per known code, the catch-all
`"Unknown error"` for any code outside the known set, and the I/O variant
structurally distinct from the engine-code variant. -/
theorem encode_error_propagation (fl : Nat) (engine : Nat → EngineResult)
    (chunks : List (List Nat)) (m : Nat)
    (hm : m < chunks.length)
    (hne : ∀ j, j ≤ m → ∀ ch, chunks.get? j = some ch → ch.length ≠ 0)
    (hok : ∀ j, j < m → (engine j).code = AACENC_ERROR_AACENC_OK)
    (herr : (engine m).code ≠ AACENC_ERROR_AACENC_OK)
    (heof : (engine m).code ≠ AACENC_ERROR_AACENC_ENCODE_EOF) :
    ((encode fl engine chunks).calls.length = m + 1 ∧
     (encode fl engine chunks).writes.length = m ∧
     (encode fl engine chunks).stats.length = m ∧
     (encode fl engine chunks).result =
       Except.error (EncoderError.FdkAac (engine m).code)) ∧
    (∀ c, (EncoderError.FdkAac c).code = c) ∧
    ((EncoderError.FdkAac AACENC_ERROR_AACENC_INVALID_HANDLE).message =
        "Handle passed to function call was invalid." ∧
     (EncoderError.FdkAac AACENC_ERROR_AACENC_MEMORY_ERROR).message =
        "Memory allocation failed." ∧
     (EncoderError.FdkAac AACENC_ERROR_AACENC_UNSUPPORTED_PARAMETER).message =
        "Parameter not available." ∧
     (EncoderError.FdkAac AACENC_ERROR_AACENC_INVALID_CONFIG).message =
        "Configuration not provided." ∧
     (EncoderError.FdkAac AACENC_ERROR_AACENC_INIT_ERROR).message =
        "General initialization error." ∧
     (EncoderError.FdkAac AACENC_ERROR_AACENC_INIT_AAC_ERROR).message =
        "AAC library initialization error." ∧
     (EncoderError.FdkAac AACENC_ERROR_AACENC_INIT_SBR_ERROR).message =
        "SBR library initialization error." ∧
     (EncoderError.FdkAac AACENC_ERROR_AACENC_INIT_TP_ERROR).message =
        "Transport library initialization error." ∧
     (EncoderError.FdkAac AACENC_ERROR_AACENC_INIT_META_ERROR).message =
        "Meta data library initialization error." ∧
     (EncoderError.FdkAac AACENC_ERROR_AACENC_INIT_MPS_ERROR).message =
        "MPS library initialization error." ∧
     (EncoderError.FdkAac AACENC_ERROR_AACENC_ENCODE_ERROR).message =
        "The encoding process was interrupted by an unexpected error.") ∧
    (∀ c, c ∉ knownCodes → (EncoderError.FdkAac c).message = "Unknown error") ∧
    (∀ e c, EncoderError.Io e ≠ EncoderError.FdkAac c) := by
  refine ⟨?_, fun _ => rfl, ⟨rfl, rfl, rfl, rfl, rfl, rfl, rfl, rfl, rfl, rfl, rfl⟩,
    ?_, fun e c h => EncoderError.noConfusion h⟩
  · have h := encodeLoop_err_run engine (bufferLen fl) m chunks 0 0 0 hm hne
      (fun j hj => by simpa using hok j hj) (by simpa using herr) (by simpa using heof)
    simpa [encode] using h
  · intro c hc
    simp only [knownCodes, List.mem_cons, List.not_mem_nil, or_false, not_or] at hc
    obtain ⟨n1, n2, n3, n4, n5, n6, n7, n8, n9, n10, n11⟩ := hc
    simp only [EncoderError.message]
    rw [if_neg n1, if_neg n2, if_neg n3, if_neg n4, if_neg n5, if_neg n6, if_neg n7,
      if_neg n8, if_neg n9, if_neg n10, if_neg n11]

/-- Witness for C5: an engine failing call 1 with `AACENC_ENCODE_ERROR`. -/
theorem encode_error_propagation_witness :
    (encode 1 engErrAt1 [[1, 2], [3, 4]]).result =
      Except.error (EncoderError.FdkAac AACENC_ERROR_AACENC_ENCODE_ERROR) ∧
    (encode 1 engErrAt1 [[1, 2], [3, 4]]).writes.length = 1 ∧
    (EncoderError.FdkAac AACENC_ERROR_AACENC_ENCODE_ERROR).code = 1280 ∧
    (EncoderError.FdkAac 7).message = "Unknown error" := by
  obtain ⟨⟨h1, h2, h3, h4⟩, hcode, hmsg, hcatch, hdist⟩ :=
    encode_error_propagation 1 engErrAt1 [[1, 2], [3, 4]] 1
      (by decide)
      (by
        intro j hj ch hch
        interval_cases j <;>
          (simp only [List.get?] at hch
           injection hch with hx
           subst hx
           decide))
      (by
        intro j hj
        interval_cases j
        rfl)
      (by decide)
      (by decide)
  exact ⟨h4, h2, (hcode AACENC_ERROR_AACENC_ENCODE_ERROR).trans (by rfl),
    hcatch 7 (by decide)⟩

/-- Under the engine contract that each call consumes at most the samples
offered (`numInSamples ≤ bytes_read / 2`), the final total never exceeds the
starting total plus half the bytes available from the source. -/
theorem encodeLoop_consumed_le (engine : Nat → EngineResult) (bl : Nat) :
    ∀ (chunks : List (List Nat)) (i c w : Nat),
    (∀ j ch, chunks.get? j = some ch → (engine (i + j)).numInSamples ≤ ch.length / 2) →
    ∀ info, (encodeLoop engine bl chunks i c w).result = Except.ok info →
      info.input_consumed ≤ c + ((chunks.map (fun ch => ch.length)).sum) / 2 := by
  intro chunks
  induction chunks with
  | nil =>
      intro i c w hctr info hres
      rw [encodeLoop_nil] at hres
      have h2 : Except.ok { input_consumed := c, output_size := w } = Except.ok info := hres
      have h3 := Except.ok.inj h2
      rw [← h3]
      exact Nat.le_add_right c _
  | cons ch rest ih =>
      intro i c w hctr info hres
      by_cases h0 : ch.length = 0
      · rw [encodeLoop_cons_zero engine bl ch rest i c w h0] at hres
        have h2 : Except.ok { input_consumed := c, output_size := w } = Except.ok info := hres
        have h3 := Except.ok.inj h2
        rw [← h3]
        exact Nat.le_add_right c _
      · by_cases hok : (engine i).code = AACENC_ERROR_AACENC_OK
        · rw [encodeLoop_cons_ok engine bl ch rest i c w h0 hok] at hres
          have hbound := ih (i + 1) (c + (engine i).numInSamples)
            (w + (engine i).numOutBytes)
            (fun j ch2 hch2 => by
              have := hctr (j + 1) ch2 hch2
              rwa [show i + (j + 1) = i + 1 + j by omega] at this)
            info hres
          have hfirst : (engine i).numInSamples ≤ ch.length / 2 := by
            have := hctr 0 ch rfl
            simpa using this
          have hdiv : ch.length / 2 + ((rest.map (fun ch2 => ch2.length)).sum) / 2 ≤
              (ch.length + (rest.map (fun ch2 => ch2.length)).sum) / 2 :=
            Nat.add_div_le_add_div ch.length _ 2
          simp only [List.map_cons, List.sum_cons]
          omega
        · by_cases heof : (engine i).code = AACENC_ERROR_AACENC_ENCODE_EOF
          · rw [encodeLoop_cons_eof engine bl ch rest i c w h0 heof] at hres
            have h2 : Except.ok { input_consumed := c, output_size := w } =
                Except.ok info := hres
            have h3 := Except.ok.inj h2
            rw [← h3]
            exact Nat.le_add_right c _
          · rw [encodeLoop_cons_err engine bl ch rest i c w h0 hok heof] at hres
            exact absurd hres (by simp)

/-- C7: the final `EncodeInfo.input_consumed` never exceeds the total number
of samples read from the input source (total bytes read divided by 2),
under the engine contract that each call consumes at most the samples
offered to it. -/
theorem encode_consumed_le_total_read (fl : Nat) (engine : Nat → EngineResult)
    (chunks : List (List Nat))
    (hctr : ∀ j ch, chunks.get? j = some ch →
        (engine j).numInSamples ≤ ch.length / 2) :
    ∀ info, (encode fl engine chunks).result = Except.ok info →
      info.input_consumed ≤ ((chunks.map (fun ch => ch.length)).sum) / 2 := by
  intro info hres
  have h := encodeLoop_consumed_le engine (bufferLen fl) chunks 0 0 0
    (fun j ch hch => by simpa using hctr j ch hch) info (by simpa [encode] using hres)
  simpa using h

/-- Witness for C7: two 2-byte reads offer 2 samples in total; the session
consumes 2 of them. -/
theorem encode_consumed_le_total_read_witness :
    2 ≤ (([[1, 2], [3, 4]] : List (List Nat)).map (fun ch => ch.length)).sum / 2 := by
  have h := encode_consumed_le_total_read 1 engModest [[1, 2], [3, 4]]
    (by
      intro j ch hch
      rcases j with _ | _ | n
      · simp only [List.get?] at hch
        injection hch with hx
        subst hx
        decide
      · simp only [List.get?] at hch
        injection hch with hx
        subst hx
        decide
      · simp only [List.get?] at hch
        exact Option.noConfusion hch)
    { input_consumed := 2, output_size := 4 } rfl
  exact h

/-- The running-total snapshots grow monotonically from the incoming
accumulator pair. -/
theorem encodeLoop_stats_chain (engine : Nat → EngineResult) (bl : Nat) :
    ∀ (chunks : List (List Nat)) (i c w : Nat),
    List.Chain (fun a b : Nat × Nat => a.1 ≤ b.1 ∧ a.2 ≤ b.2) (c, w)
      (encodeLoop engine bl chunks i c w).stats := by
  intro chunks
  induction chunks with
  | nil =>
      intro i c w
      rw [encodeLoop_nil]
      exact List.Chain.nil
  | cons ch rest ih =>
      intro i c w
      by_cases h0 : ch.length = 0
      · rw [encodeLoop_cons_zero engine bl ch rest i c w h0]
        exact List.Chain.nil
      · by_cases hok : (engine i).code = AACENC_ERROR_AACENC_OK
        · rw [encodeLoop_cons_ok engine bl ch rest i c w h0 hok]
          exact List.Chain.cons ⟨Nat.le_add_right c _, Nat.le_add_right w _⟩
            (ih (i + 1) (c + (engine i).numInSamples) (w + (engine i).numOutBytes))
        · by_cases heof : (engine i).code = AACENC_ERROR_AACENC_ENCODE_EOF
          · rw [encodeLoop_cons_eof engine bl ch rest i c w h0 heof]
            exact List.Chain.nil
          · rw [encodeLoop_cons_err engine bl ch rest i c w h0 hok heof]
            exact List.Chain.nil

/-- At most one stat update happens per process call. -/
theorem encodeLoop_stats_le_calls (engine : Nat → EngineResult) (bl : Nat) :
    ∀ (chunks : List (List Nat)) (i c w : Nat),
    (encodeLoop engine bl chunks i c w).stats.length ≤
      (encodeLoop engine bl chunks i c w).calls.length := by
  intro chunks
  induction chunks with
  | nil =>
      intro i c w
      rw [encodeLoop_nil]
      simp
  | cons ch rest ih =>
      intro i c w
      by_cases h0 : ch.length = 0
      · rw [encodeLoop_cons_zero engine bl ch rest i c w h0]
        simp
      · by_cases hok : (engine i).code = AACENC_ERROR_AACENC_OK
        · rw [encodeLoop_cons_ok engine bl ch rest i c w h0 hok]
          simpa using ih (i + 1) (c + (engine i).numInSamples) (w + (engine i).numOutBytes)
        · by_cases heof : (engine i).code = AACENC_ERROR_AACENC_ENCODE_EOF
          · rw [encodeLoop_cons_eof engine bl ch rest i c w h0 heof]
            simp
          · rw [encodeLoop_cons_err engine bl ch rest i c w h0 hok heof]
            simp

/-- A normal return carries exactly the last snapshot of the running totals
(or the incoming accumulators when no update happened). -/
theorem encodeLoop_result_is_last_stat (engine : Nat → EngineResult) (bl : Nat) :
    ∀ (chunks : List (List Nat)) (i c w : Nat) (info : EncodeInfo),
    (encodeLoop engine bl chunks i c w).result = Except.ok info →
    (info.input_consumed, info.output_size) =
      (encodeLoop engine bl chunks i c w).stats.getLastD (c, w) := by
  intro chunks
  induction chunks with
  | nil =>
      intro i c w info hres
      rw [encodeLoop_nil] at hres ⊢
      have h3 := Except.ok.inj hres
      rw [← h3]
      rfl
  | cons ch rest ih =>
      intro i c w info hres
      by_cases h0 : ch.length = 0
      · rw [encodeLoop_cons_zero engine bl ch rest i c w h0] at hres ⊢
        have h3 := Except.ok.inj hres
        rw [← h3]
        rfl
      · by_cases hok : (engine i).code = AACENC_ERROR_AACENC_OK
        · rw [encodeLoop_cons_ok engine bl ch rest i c w h0 hok] at hres ⊢
          have h := ih (i + 1) (c + (engine i).numInSamples)
            (w + (engine i).numOutBytes) info hres
          show (info.input_consumed, info.output_size) =
            ((c + (engine i).numInSamples, w + (engine i).numOutBytes) ::
              (encodeLoop engine bl rest (i + 1) (c + (engine i).numInSamples)
                (w + (engine i).numOutBytes)).stats).getLastD (c, w)
          rw [List.getLastD_cons]
          exact h
        · by_cases heof : (engine i).code = AACENC_ERROR_AACENC_ENCODE_EOF
          · rw [encodeLoop_cons_eof engine bl ch rest i c w h0 heof] at hres ⊢
            have h3 := Except.ok.inj hres
            rw [← h3]
            rfl
          · rw [encodeLoop_cons_err engine bl ch rest i c w h0 hok heof] at hres
            exact absurd hres (by simp)

/-- C8: the running totals start at zero, are updated at most once per loop
iteration (one snapshot per process call at most), and grow monotonically;
a normal return reports exactly the last snapshot (or zero if none). -/
theorem encode_totals_monotone (fl : Nat) (engine : Nat → EngineResult)
    (chunks : List (List Nat)) :
    List.Chain (fun a b : Nat × Nat => a.1 ≤ b.1 ∧ a.2 ≤ b.2) (0, 0)
      (encode fl engine chunks).stats ∧
    (encode fl engine chunks).stats.length ≤ (encode fl engine chunks).calls.length ∧
    (∀ info, (encode fl engine chunks).result = Except.ok info →
      (info.input_consumed, info.output_size) =
        (encode fl engine chunks).stats.getLastD (0, 0)) := by
  refine ⟨?_, ?_, ?_⟩
  · exact encodeLoop_stats_chain engine (bufferLen fl) chunks 0 0 0
  · exact encodeLoop_stats_le_calls engine (bufferLen fl) chunks 0 0 0
  · intro info hres
    exact encodeLoop_result_is_last_stat engine (bufferLen fl) chunks 0 0 0 info hres

/-- Witness for C8: the final totals of a one-call session equal its only
snapshot. -/
theorem encode_totals_monotone_witness :
    ((3 : Nat), (2 : Nat)) = (encode 1 engAllOk [[1, 2]]).stats.getLastD (0, 0) := by
  exact (encode_totals_monotone 1 engAllOk [[1, 2]]).2.2
    { input_consumed := 3, output_size := 2 } rfl

/-- C9: an I/O-variant error reports `code() = 0` and
`message() = "io error"`; the numeric identity 0 coincides with the engine's
`AACENC_OK` code, so the raw code is preserved only by the engine-code
variant. -/
theorem io_error_code_is_zero :
    (∀ e, (EncoderError.Io e).code = 0 ∧ (EncoderError.Io e).message = "io error") ∧
    AACENC_ERROR_AACENC_OK = 0 ∧
    (∀ c, (EncoderError.FdkAac c).code = c) :=
  ⟨fun _ => ⟨rfl, rfl⟩, rfl, fun _ => rfl⟩

/-- When every configuration call succeeds, all planned calls are issued. -/
theorem runChecked_all_ok (resp : Nat → Nat)
    (hall : ∀ j, resp j = AACENC_ERROR_AACENC_OK) :
    ∀ (l : List SetupCall) (i : Nat), runChecked resp i l = (l, Except.ok ()) := by
  intro l
  induction l with
  | nil => intro i; rfl
  | cons c cs ih =>
      intro i
      rw [runChecked_cons_ok resp i c cs (hall i), ih (i + 1)]

/-- The first failing configuration call aborts the sequence: the calls
issued are exactly the planned prefix through the failing call, and the
failing status is propagated as `EncoderError::FdkAac`. -/
theorem runChecked_fail_at (resp : Nat → Nat) :
    ∀ (l : List SetupCall) (j i : Nat), j < l.length →
    (∀ k, k < j → resp (i + k) = AACENC_ERROR_AACENC_OK) →
    resp (i + j) ≠ AACENC_ERROR_AACENC_OK →
    runChecked resp i l =
      (l.take (j + 1), Except.error (EncoderError.FdkAac (resp (i + j)))) := by
  intro l
  induction l with
  | nil =>
      intro j i hj
      simp at hj
  | cons c cs ih =>
      intro j i hj hok hfail
      cases j with
      | zero =>
          have hf : resp i ≠ AACENC_ERROR_AACENC_OK := by simpa using hfail
          rw [runChecked_cons_fail resp i c cs hf]
          simp
      | succ j' =>
          have h0 : resp i = AACENC_ERROR_AACENC_OK := by
            have := hok 0 (Nat.succ_pos j')
            simpa using this
          rw [show i + (j' + 1) = i + 1 + j' by omega]
          rw [runChecked_cons_ok resp i c cs h0]
          have hrec := ih j' (i + 1) (by simpa using hj)
            (fun k hk => by
              have := hok (k + 1) (Nat.succ_lt_succ hk)
              rwa [show i + (k + 1) = i + 1 + k by omega] at this)
            (by rwa [show i + 1 + j' = i + (j' + 1) by omega])
          rw [hrec]
          rfl

/-- C3: `Encoder::new` issues the engine calls in exactly the source order —
AOT profile first; for `Cbr b` the explicit bit rate then bit-rate-mode 0;
for each VBR tier only bit-rate-mode with its integer code 1-5; then sample
rate, framing mode (`Adts` ↦ 2, `Raw` ↦ 0), SBR off, channel mode 2, and
one final all-null commit call, issued last and nowhere else; any failing
step (the initial open included) aborts construction and propagates the
engine's error. -/
theorem encoderNew_call_order (p : EncoderParams) (openCode : Nat) (resp : Nat → Nat) :
    (openCode = AACENC_ERROR_AACENC_OK → (∀ j, resp j = AACENC_ERROR_AACENC_OK) →
        encoderNew openCode resp p = (setupCalls p, Except.ok ())) ∧
    (∀ b, p.bit_rate = BitRate.Cbr b →
        setupCalls p =
          [SetupCall.setParam AACENC_PARAM_AACENC_AOT 2,
           SetupCall.setParam AACENC_PARAM_AACENC_BITRATE b,
           SetupCall.setParam AACENC_PARAM_AACENC_BITRATEMODE 0,
           SetupCall.setParam AACENC_PARAM_AACENC_SAMPLERATE p.sample_rate,
           SetupCall.setParam AACENC_PARAM_AACENC_TRANSMUX (transmuxValue p.transport),
           SetupCall.setParam AACENC_PARAM_AACENC_SBR_MODE 0,
           SetupCall.setParam AACENC_PARAM_AACENC_CHANNELMODE 2,
           SetupCall.encodeNull]) ∧
    ((∀ b, p.bit_rate ≠ BitRate.Cbr b) →
        setupCalls p =
          [SetupCall.setParam AACENC_PARAM_AACENC_AOT 2,
           SetupCall.setParam AACENC_PARAM_AACENC_BITRATEMODE (bitrateMode p.bit_rate),
           SetupCall.setParam AACENC_PARAM_AACENC_SAMPLERATE p.sample_rate,
           SetupCall.setParam AACENC_PARAM_AACENC_TRANSMUX (transmuxValue p.transport),
           SetupCall.setParam AACENC_PARAM_AACENC_SBR_MODE 0,
           SetupCall.setParam AACENC_PARAM_AACENC_CHANNELMODE 2,
           SetupCall.encodeNull] ∧
        1 ≤ bitrateMode p.bit_rate ∧ bitrateMode p.bit_rate ≤ 5) ∧
    (bitrateMode BitRate.VbrVeryLow = 1 ∧ bitrateMode BitRate.VbrLow = 2 ∧
     bitrateMode BitRate.VbrMedium = 3 ∧ bitrateMode BitRate.VbrHigh = 4 ∧
     bitrateMode BitRate.VbrVeryHigh = 5 ∧ ∀ b, bitrateMode (BitRate.Cbr b) = 0) ∧
    (transmuxValue Transport.Adts = 2 ∧ transmuxValue Transport.Raw = 0) ∧
    SetupCall.encodeNull ∉ (setupCalls p).dropLast ∧
    (setupCalls p).getLast? = some SetupCall.encodeNull ∧
    (∀ j, j < (setupCalls p).length →
        (∀ k, k < j → resp k = AACENC_ERROR_AACENC_OK) →
        resp j ≠ AACENC_ERROR_AACENC_OK → openCode = AACENC_ERROR_AACENC_OK →
        encoderNew openCode resp p =
          ((setupCalls p).take (j + 1),
           Except.error (EncoderError.FdkAac (resp j)))) ∧
    (openCode ≠ AACENC_ERROR_AACENC_OK →
        encoderNew openCode resp p = ([], Except.error (EncoderError.FdkAac openCode))) := by
  refine ⟨?_, ?_, ?_, ⟨rfl, rfl, rfl, rfl, rfl, fun b => rfl⟩, ⟨rfl, rfl⟩, ?_, ?_, ?_, ?_⟩
  · intro ho hall
    simp only [encoderNew, if_pos ho]
    exact runChecked_all_ok resp hall (setupCalls p) 0
  · intro b hb
    simp [setupCalls, hb, bitrateMode]
  · intro hnc
    rcases hb : p.bit_rate with b | _ | _ | _ | _ | _
    · exact absurd hb (hnc b)
    all_goals exact ⟨by simp [setupCalls, hb, bitrateMode], by decide, by decide⟩
  · rcases hb : p.bit_rate with b | _ | _ | _ | _ | _ <;> simp [setupCalls, hb]
  · rcases hb : p.bit_rate with b | _ | _ | _ | _ | _ <;> simp [setupCalls, hb]
  · intro j hj hprev hfail ho
    simp only [encoderNew, if_pos ho]
    have h := runChecked_fail_at resp (setupCalls p) j 0 hj
      (fun k hk => by simpa using hprev k hk) (by simpa using hfail)
    rw [h]
    simp
  · intro ho
    simp only [encoderNew, if_neg ho]

/-- Witness for C3: a fully successful `Cbr` construction issues the eight
calls in order, and a `VbrMedium` construction whose third call fails with
`AACENC_INVALID_CONFIG` stops right there and propagates that code. -/
theorem encoderNew_call_order_witness :
    encoderNew AACENC_ERROR_AACENC_OK (fun _ => AACENC_ERROR_AACENC_OK)
      { bit_rate := BitRate.Cbr 128000, sample_rate := 44100,
        transport := Transport.Adts } =
      ([SetupCall.setParam AACENC_PARAM_AACENC_AOT 2,
        SetupCall.setParam AACENC_PARAM_AACENC_BITRATE 128000,
        SetupCall.setParam AACENC_PARAM_AACENC_BITRATEMODE 0,
        SetupCall.setParam AACENC_PARAM_AACENC_SAMPLERATE 44100,
        SetupCall.setParam AACENC_PARAM_AACENC_TRANSMUX 2,
        SetupCall.setParam AACENC_PARAM_AACENC_SBR_MODE 0,
        SetupCall.setParam AACENC_PARAM_AACENC_CHANNELMODE 2,
        SetupCall.encodeNull], Except.ok ()) ∧
    encoderNew AACENC_ERROR_AACENC_OK respFailAt2
      { bit_rate := BitRate.VbrMedium, sample_rate := 48000,
        transport := Transport.Raw } =
      ([SetupCall.setParam AACENC_PARAM_AACENC_AOT 2,
        SetupCall.setParam AACENC_PARAM_AACENC_BITRATEMODE 3,
        SetupCall.setParam AACENC_PARAM_AACENC_SAMPLERATE 48000],
       Except.error (EncoderError.FdkAac AACENC_ERROR_AACENC_INVALID_CONFIG)) := by
  constructor
  · have h := encoderNew_call_order
      { bit_rate := BitRate.Cbr 128000, sample_rate := 44100,
        transport := Transport.Adts }
      AACENC_ERROR_AACENC_OK (fun _ => AACENC_ERROR_AACENC_OK)
    rw [h.1 rfl (fun _ => rfl), h.2.1 128000 rfl]
    rfl
  · have h := encoderNew_call_order
      { bit_rate := BitRate.VbrMedium, sample_rate := 48000,
        transport := Transport.Raw }
      AACENC_ERROR_AACENC_OK respFailAt2
    have hf := h.2.2.2.2.2.2.2.1 2 (by decide)
      (by
        intro k hk
        interval_cases k <;> rfl)
      (by decide) rfl
    rw [hf]
    rfl
